import Mathlib

/-!
Shallow embedding of the OpenMC benchmark runner module
(`benchmarks/openmc_runner.py`) and proofs about its specification.

Python strings are modelled as `List Char`; Python `float` values arising
from parsing short decimal/scientific numerals are modelled as `ℚ` (every
numeral the claims mention converts exactly); Python `dict` is modelled as
an insertion-ordered association list with overwrite-in-place update,
mirroring CPython semantics.  Functions that may raise are modelled with
`Except`/`Option`.  Subprocess and filesystem effects are supplied as
explicit oracle records.
-/

set_option maxRecDepth 100000

deriving instance DecidableEq for Except

namespace OpenMCBench

abbrev Str := List Char

/-- Characters stripped by Python `str.strip()` (ASCII whitespace). -/
def pyIsSpace (c : Char) : Bool :=
  c = ' ' || c = '\t' || c = '\n' || c = '\r' || c = '\x0b' || c = '\x0c'

/-- Model of Python `str.lstrip()`. -/
def trimLeft (s : Str) : Str := s.dropWhile pyIsSpace

/-- Model of Python `str.rstrip()`. -/
def trimRight (s : Str) : Str := (s.reverse.dropWhile pyIsSpace).reverse

/-- Model of Python `str.strip()`. -/
def trim (s : Str) : Str := trimRight (trimLeft s)

/-- Model of Python `str.splitlines()` (line terminators `\n`, `\r`, `\r\n`;
a trailing terminator does not produce a final empty line). -/
def splitlinesGo (acc : Str) : Str → List Str
  | [] => [acc.reverse]
  | '\n' :: [] => [acc.reverse]
  | '\n' :: rest => acc.reverse :: splitlinesGo [] rest
  | '\r' :: '\n' :: [] => [acc.reverse]
  | '\r' :: '\n' :: rest => acc.reverse :: splitlinesGo [] rest
  | '\r' :: [] => [acc.reverse]
  | '\r' :: rest => acc.reverse :: splitlinesGo [] rest
  | c :: rest => splitlinesGo (c :: acc) rest

/-- Model of Python `str.splitlines()`; the empty string yields no lines. -/
def splitlines (s : Str) : List Str :=
  if s = [] then [] else splitlinesGo [] s

/-- Model of Python `str.split(sep, 1)` for a nonempty separator: split at the
first occurrence of `sep`, or `none` when `sep` does not occur. -/
def splitOnce (sep : Str) : Str → Option (Str × Str)
  | [] => none
  | c :: rest =>
    if sep.isPrefixOf (c :: rest) then some ([], (c :: rest).drop sep.length)
    else
      match splitOnce sep rest with
      | some (pre, post) => some (c :: pre, post)
      | none => none

/-- Model of Python `str.split(sep)` for a single-character separator:
split at every occurrence (`"".split(sep) == [""]`). -/
def splitAll (sep : Char) : Str → List Str
  | [] => [[]]
  | c :: rest =>
    if c = sep then [] :: splitAll sep rest
    else
      match splitAll sep rest with
      | h :: t => (c :: h) :: t
      | [] => [[c]]

/-- Numeric value of a digit string (assumes all characters are digits). -/
def natOfDigits (s : Str) : Nat :=
  s.foldl (fun n c => n * 10 + (c.toNat - 48)) 0

/-- Model of Python `int(str)`: strip whitespace, optional sign, then a
nonempty run of decimal digits (digit-group underscores are not modelled). -/
def pyInt (s : Str) : Option Int :=
  let t := trim s
  match t with
  | '+' :: rest =>
    if rest ≠ [] ∧ rest.all Char.isDigit then some (natOfDigits rest) else none
  | '-' :: rest =>
    if rest ≠ [] ∧ rest.all Char.isDigit then some (-(natOfDigits rest : Int)) else none
  | _ =>
    if t ≠ [] ∧ t.all Char.isDigit then some (natOfDigits t) else none

/-- Unsigned part of Python `float(str)`: `digits [. digits] [exp]` with at
least one digit in the mantissa; `inf`/`nan` and underscores are not
modelled (they never arise in this module's inputs). -/
def pyFloatUnsigned (t : Str) : Option ℚ :=
  let ip := t.takeWhile Char.isDigit
  let r1 := t.drop ip.length
  let fr :=
    match r1 with
    | '.' :: rest => (rest.takeWhile Char.isDigit, rest.drop (rest.takeWhile Char.isDigit).length)
    | _ => (([] : Str), r1)
  let fp := fr.1
  let r2 := fr.2
  if ip = [] ∧ fp = [] then none
  else
    let mant : ℚ := (natOfDigits ip : ℚ) + (natOfDigits fp : ℚ) / ((10 : ℚ) ^ fp.length)
    match r2 with
    | [] => some mant
    | e :: rest =>
      if e = 'e' ∨ e = 'E' then
        let se :=
          match rest with
          | '+' :: d => ((1 : Int), d)
          | '-' :: d => ((-1 : Int), d)
          | d => ((1 : Int), d)
        if se.2 ≠ [] ∧ se.2.all Char.isDigit then
          some (mant * (10 : ℚ) ^ (se.1 * (natOfDigits se.2 : Int)))
        else none
      else none

/-- Model of Python `float(str)` on finite decimal/scientific numerals. -/
def pyFloat (s : Str) : Option ℚ :=
  let t := trim s
  match t with
  | '+' :: rest => pyFloatUnsigned rest
  | '-' :: rest => (pyFloatUnsigned rest).map Neg.neg
  | _ => pyFloatUnsigned t

/-- Model of Python `a or b` on optional strings (`None` and `""` are falsy). -/
def pyOrStr (a b : Option Str) : Option Str :=
  match a with
  | some s => if s = [] then b else some s
  | none => b

/-- Model of Python `a or default` where `a` is an optional string. -/
def pyOrDefault (a : Option Str) (d : Str) : Str :=
  match a with
  | some s => if s = [] then d else s
  | none => d

/-- Truthiness of an optional list (`None` and `[]`/`()` are falsy). -/
def truthyList (o : Option (List α)) : Bool :=
  match o with
  | some l => !l.isEmpty
  | none => false

/-! ### Python `dict` model: insertion-ordered association list -/

/-- A Python `dict` with string keys: insertion-ordered, unique keys. -/
abbrev Dict (α : Type) := List (Str × α)

/-- Model of `d[k]` / `d.get(k)`. -/
def dictGet (d : Dict α) (k : Str) : Option α :=
  match d with
  | [] => none
  | p :: rest => if p.1 = k then some p.2 else dictGet rest k

/-- Whether key `k` is present. -/
def containsKey (d : Dict α) (k : Str) : Bool :=
  match d with
  | [] => false
  | p :: rest => p.1 = k || containsKey rest k

/-- Model of `d[k] = v`: update in place when the key exists (CPython keeps
the original insertion position), append otherwise. -/
def dictInsert (d : Dict α) (k : Str) (v : α) : Dict α :=
  if containsKey d k then d.map (fun p => if p.1 = k then (k, v) else p)
  else d ++ [(k, v)]

/-! ### Data model (`TimeUsage`, `OpenMCBuildInfo`, `OpenMCTimingStats`,
`OpenMCRunResult`), translated from the dataclasses in
`benchmarks/openmc_runner.py`. -/

/-- Parsed output from `time -v` describing resource usage. -/
structure TimeUsage where
  elapsed_seconds : Option ℚ := none
  user_seconds : Option ℚ := none
  system_seconds : Option ℚ := none
  max_rss_kb : Option Int := none
  cpu_percent : Option ℚ := none
  raw : Dict Str := []
deriving Repr, DecidableEq

/-- Metadata extracted from `openmc -v`. -/
structure OpenMCBuildInfo where
  version : Option Str := none
  commit_hash : Option Str := none
  raw : Dict Str := []
deriving Repr, DecidableEq

/-- Selected timing metrics parsed from OpenMC stdout. -/
structure OpenMCTimingStats where
  total_elapsed : Option ℚ := none
  initialization : Option ℚ := none
  transport : Option ℚ := none
  calc_rate_inactive : Option ℚ := none
  calc_rate_active : Option ℚ := none
  raw : Dict ℚ := []
deriving Repr, DecidableEq

/-- Structured details about a finished OpenMC invocation. -/
structure OpenMCRunResult where
  returncode : Int
  stdout : Str
  stderr : Str
  command : List Str
  workdir : Str
  threads : Option Int
  mpi_procs : Option Int
  time_usage : TimeUsage
  build_info : Option OpenMCBuildInfo := none
  timing_stats : Option OpenMCTimingStats := none
  requested_mpi_procs : Option Int := none
deriving Repr, DecidableEq

/-! ### Version-banner parsing (`_parse_openmc_version_output`) -/

/-- The literal version marker `OpenMC version` (also the raw-map key the
marker branch writes). -/
def markerChars : Str := "OpenMC version".toList

/-- One iteration of the loop in `_parse_openmc_version_output`: strip the
line; skip it when empty; a line starting with the marker stores the text
after the marker (trimmed) under the marker key (`str.partition` splits at
the first occurrence, which the prefix guard places at position 0, so the
tail is the line minus the marker); otherwise a line containing a colon
stores `key.strip() -> value.strip()` split at the first colon. -/
def versionLineStep (info : Dict Str) (line : Str) : Dict Str :=
  let stripped := trim line
  if stripped = [] then info
  else if markerChars.isPrefixOf stripped then
    dictInsert info markerChars (trim (stripped.drop markerChars.length))
  else
    match splitOnce [':'] stripped with
    | some (k, v) => dictInsert info (trim k) (trim v)
    | none => info

/-- Model of `_parse_openmc_version_output`. -/
def parse_openmc_version_output (lines : List Str) : Dict Str :=
  lines.foldl versionLineStep []

/-! ### `time -v` report parsing (`_parse_time_output` and helpers) -/

/-- Model of `_lookup_stat`: first value (in insertion order) whose key
starts with the given key fragment. -/
def lookup_stat (values : Dict Str) (kp : Str) : Option Str :=
  (values.find? (fun p => kp.isPrefixOf p.1)).map (fun p => p.2)

/-- Model of `_parse_float` (`None`/empty → absent; otherwise `float`). -/
def parse_float (value : Option Str) : Option ℚ :=
  match value with
  | none => none
  | some s => if s = [] then none else pyFloat s

/-- Model of `_parse_int`. -/
def parse_int (value : Option Str) : Option Int :=
  match value with
  | none => none
  | some s => if s = [] then none else pyInt s

/-- Model of `_parse_percent`: strip every trailing `%`, then parse as
`_parse_float` does. -/
def parse_percent (value : Option Str) : Option ℚ :=
  match value with
  | none => none
  | some s =>
    if s = [] then none
    else
      let s2 := (s.reverse.dropWhile (fun c => c = '%')).reverse
      if s2 = [] then none else pyFloat s2

/-- Model of `_parse_elapsed`: split on `:`; two fields parse as
`int(minutes)*60 + float(seconds)`, three as
`int(hours)*3600 + int(minutes)*60 + float(seconds)`; any other shape or a
conversion failure yields absence. -/
def parse_elapsed (value : Option Str) : Option ℚ :=
  match value with
  | none => none
  | some s =>
    if s = [] then none
    else
      match splitAll ':' s with
      | [m, sec] =>
        match pyInt m, pyFloat sec with
        | some mi, some sq => some ((mi : ℚ) * 60 + sq)
        | _, _ => none
      | [h, m, sec] =>
        match pyInt h, pyInt m, pyFloat sec with
        | some hi, some mi, some sq => some ((hi : ℚ) * 3600 + (mi : ℚ) * 60 + sq)
        | _, _, _ => none
      | _ => none

/-- The raw map built by `_parse_time_output`: every line containing the
delimiter `": "` contributes `key.strip() -> value.strip()` split at the
first occurrence (file iteration keeps the trailing newline on each line,
which the subsequent `.strip()` removes, so splitting the content into
lines first is equivalent). -/
def timeRaw (content : Str) : Dict Str :=
  (splitlines content).foldl
    (fun acc line =>
      match splitOnce [':', ' '] line with
      | some (k, v) => dictInsert acc (trim k) (trim v)
      | none => acc)
    []

/-- Model of `_parse_time_output`; the argument is the report file's
content, `none` when the file does not exist. -/
def parse_time_output (content : Option Str) : TimeUsage :=
  match content with
  | none => {}
  | some text =>
    let raw := timeRaw text
    { elapsed_seconds := parse_elapsed (lookup_stat raw "Elapsed (wall clock) time".toList),
      user_seconds := parse_float (lookup_stat raw "User time (seconds)".toList),
      system_seconds := parse_float (lookup_stat raw "System time (seconds)".toList),
      max_rss_kb := parse_int (lookup_stat raw "Maximum resident set size".toList),
      cpu_percent := parse_percent (lookup_stat raw "Percent of CPU this job got".toList),
      raw := raw }

/-! ### Timing-line parsing (`_TIMING_REGEX`, `_parse_openmc_timing`)

Each table entry has the shape
`^<head>\s*=\s*([0-9.eE+-]+)\s*<tail>$`.  Because the capture class is
disjoint from whitespace and from the first character of `=` and of the
tails, greedy matching never needs to backtrack, so the regex is
equivalent to the deterministic maximal-munch matcher below. -/

/-- Characters of the capture class `[0-9.eE+-]`. -/
def isNumChar (c : Char) : Bool :=
  c.isDigit || c = '.' || c = 'e' || c = 'E' || c = '+' || c = '-'

/-- Deterministic model of one `_TIMING_REGEX` pattern applied with
`re.match` to a stripped line: on success returns the captured group. -/
def matchTiming (head tl s : Str) : Option Str :=
  if head.isPrefixOf s then
    let r1 := (s.drop head.length).dropWhile pyIsSpace
    match r1 with
    | '=' :: r3 =>
      let r4 := r3.dropWhile pyIsSpace
      let num := r4.takeWhile isNumChar
      if num = [] then none
      else if ((r4.drop num.length).dropWhile pyIsSpace) = tl then some num
      else none
    | _ => none
  else none

/-- The `_TIMING_REGEX` table: `(key, literal head, literal tail)` in the
dict's insertion order. -/
def timingKeys : List (Str × Str × Str) :=
  [("initialization".toList, "Total time for initialization".toList, "seconds".toList),
   ("transport".toList, "Time in transport only".toList, "seconds".toList),
   ("total_elapsed".toList, "Total time elapsed".toList, "seconds".toList),
   ("calc_rate_inactive".toList, "Calculation Rate (inactive)".toList, "particles/second".toList),
   ("calc_rate_active".toList, "Calculation Rate (active)".toList, "particles/second".toList)]

/-- Inner loop of `_parse_openmc_timing` over one line: strip it, skip it
when empty, otherwise try every pattern, storing `float(group(1))` under
the pattern's key when both the match and the conversion succeed. -/
def parse_timing_line (values : Dict ℚ) (line : Str) : Dict ℚ :=
  if trim line = [] then values
  else
    timingKeys.foldl
      (fun acc kv =>
        match matchTiming kv.2.1 kv.2.2 (trim line) with
        | some num =>
          match pyFloat num with
          | some q => dictInsert acc kv.1 q
          | none => acc
        | none => acc)
      values

/-- Model of `_parse_openmc_timing` over its variadic streams. -/
def parse_openmc_timing (streams : List Str) : Option OpenMCTimingStats :=
  let values :=
    streams.foldl
      (fun acc stream =>
        if stream = [] then acc
        else (splitlines stream).foldl parse_timing_line acc)
      []
  if values = [] then none
  else
    some
      { total_elapsed := dictGet values "total_elapsed".toList,
        initialization := dictGet values "initialization".toList,
        transport := dictGet values "transport".toList,
        calc_rate_inactive := dictGet values "calc_rate_inactive".toList,
        calc_rate_active := dictGet values "calc_rate_active".toList,
        raw := values }

/-! ### MPI capability and launcher resolution -/

/-- The accepted values `{"yes", "true", "1"}`. -/
def mpiYesValues : List Str := ["yes".toList, "true".toList, "1".toList]

/-- Model of `OpenMCRunner._build_supports_mpi`. -/
def build_supports_mpi (build_info : Option OpenMCBuildInfo) : Bool :=
  match build_info with
  | none => true
  | some info =>
    match pyOrStr (dictGet info.raw "MPI enabled".toList) (dictGet info.raw "MPI Enabled".toList) with
    | none => true
    | some v => mpiYesValues.contains ((trim v).map Char.toLower)

/-- Model of `OpenMCRunner._select_mpi_procs` (`not requested` adds only
the case `requested == 0`, which `requested <= 1` subsumes for `int`). -/
def select_mpi_procs (requested : Option Int) (build_info : Option OpenMCBuildInfo) : Option Int :=
  match requested with
  | none => none
  | some p =>
    if p = 0 ∨ p ≤ 1 then none
    else if ¬ build_supports_mpi build_info then none
    else some p

/-- The `{procs}` placeholder. -/
def placeholderChars : Str := "{procs}".toList

/-- Model of `part.format(procs=mpi_procs)`: replace every occurrence of
`{procs}` with the decimal form of the count (other `str.format`
directives never occur in this module's launcher tokens). -/
def formatProcs (p : Int) : Str → Str
  | '{' :: 'p' :: 'r' :: 'o' :: 'c' :: 's' :: '}' :: rest => (toString p).toList ++ formatProcs p rest
  | c :: rest => c :: formatProcs p rest
  | [] => []

/-- Model of `OpenMCRunner._resolve_mpi_launcher`. -/
def resolve_mpi_launcher (default_mpi_runner : Option (List Str)) (mpi_procs : Option Int)
    (mpi_command : Option (List Str)) : Except Str (List Str) :=
  match mpi_procs with
  | none => .ok []
  | some p =>
    if p = 0 ∨ p ≤ 1 then .ok []
    else if truthyList mpi_command then
      .ok ((mpi_command.getD []).map (formatProcs p))
    else if truthyList default_mpi_runner then
      .ok (default_mpi_runner.getD [] ++ ["-np".toList, (toString p).toList])
    else .error "MPI requested but no launcher available".toList

/-- Model of `OpenMCRunner._build_command`. -/
def build_command (openmc_exec : Str) (openmc_args : Option (List Str)) (mpi_procs : Option Int)
    (mpi_command : Option (List Str)) (time_exec : Str) (time_output : Str)
    (default_mpi_runner : Option (List Str)) : Except Str (List Str) :=
  match resolve_mpi_launcher default_mpi_runner mpi_procs mpi_command with
  | .error e => .error e
  | .ok launcher =>
    let base := launcher ++ [openmc_exec] ++ (if truthyList openmc_args then openmc_args.getD [] else [])
    .ok ([time_exec, "-v".toList, "-o".toList, time_output] ++ base)

/-! ### Runner state, build-info caching, and `run_model` -/

/-- The mutable state of one `OpenMCRunner` instance. -/
structure RunnerState where
  openmc_exec : Str
  time_executable : Str
  default_mpi_runner : Option (List Str)
  cached_build_info : Option OpenMCBuildInfo
deriving Repr, DecidableEq

/-- Model of `OpenMCRunner.__init__` (`tuple(x) if x else None` keeps the
launcher only when truthy, and the cache starts empty). -/
def runnerInit (openmc_exec time_executable : Str)
    (default_mpi_runner : Option (List Str)) : RunnerState :=
  { openmc_exec := openmc_exec,
    time_executable := time_executable,
    default_mpi_runner :=
      if truthyList default_mpi_runner then some (default_mpi_runner.getD []) else none,
    cached_build_info := none }

/-- A runner built with all-default constructor arguments. -/
def defaultRunner : RunnerState :=
  runnerInit "openmc".toList "/usr/bin/time".toList (some ["mpirun".toList])

/-- Result of one `_get_build_info` call: the returned info, the runner
state afterwards, and whether `_fetch_build_info` (the probe subprocess)
was executed. -/
structure ProbeOutcome where
  info : Option OpenMCBuildInfo
  state : RunnerState
  probed : Bool
deriving Repr, DecidableEq

/-- Model of `OpenMCRunner._get_build_info`; the probe's would-be result
(`_fetch_build_info`, a subprocess) is supplied as the oracle `fetched`.
A dataclass instance is always truthy, so `if self._cached_build_info`
tests exactly cache non-absence. -/
def get_build_info (st : RunnerState) (ex : Str) (fetched : Option OpenMCBuildInfo) : ProbeOutcome :=
  if st.cached_build_info.isSome ∧ ex = st.openmc_exec then
    { info := st.cached_build_info, state := st, probed := false }
  else
    { info := fetched,
      state := if ex = st.openmc_exec then { st with cached_build_info := fetched } else st,
      probed := true }

/-- Probe executions over a sequence of `_get_build_info` calls, each given
as `(executable path, probe oracle)`; returns, per call, whether the probe
subprocess ran. -/
def probeTrace (st : RunnerState) : List (Str × Option OpenMCBuildInfo) → List Bool
  | [] => []
  | c :: rest =>
    let o := get_build_info st c.1 c.2
    o.probed :: probeTrace o.state rest

/-- Model of `OpenMCRunner._prepare_workdir`: a supplied directory is
returned unowned; otherwise `mkdtemp` yields a fresh directory (the oracle
`tempDir`) owned by the runner. -/
def prepare_workdir (working_dir : Option Str) (tempDir : Str) : Str × Bool :=
  match working_dir with
  | some w => (w, false)
  | none => (tempDir, true)

/-- Outcome of the environment interactions of one `run_model` call. -/
structure SubprocessOutcome where
  returncode : Int
  stdout : Str
  stderr : Str
deriving Repr, DecidableEq

/-- Oracles for the external effects of one `run_model` call. -/
structure RunEffects where
  exportRaises : Bool
  fetched_build_info : Option OpenMCBuildInfo
  sub : SubprocessOutcome
  timeFileContent : Option Str
  tempDir : Str
  rmtreeFails : Bool
deriving Repr, DecidableEq

/-- Arguments of one `run_model` call (`modelValid` abstracts "the model
argument is non-`None` and exposes a callable `export_to_xml`"). -/
structure RunArgs where
  modelValid : Bool := true
  threads : Option Int := none
  mpi_procs : Option Int := none
  mpi_command : Option (List Str) := none
  openmc_args : Option (List Str) := none
  working_dir : Option Str := none
  keep_workdir : Bool := false
  openmc_exec : Option Str := none
  time_executable : Option Str := none
  capture_output : Bool := true
deriving Repr, DecidableEq

/-- Everything observable about one `run_model` call: the returned value
or raised error, the runner state afterwards, whether the version probe
ran, the working directory, its ownership, and whether the `finally`
block invoked `shutil.rmtree` on it. -/
structure RunOutcome where
  result : Except Str OpenMCRunResult
  state : RunnerState
  probed : Bool
  workdirPath : Str
  ownsWorkdir : Bool
  removalAttempted : Bool

/-- Model of `OpenMCRunner.run_model`.  The `finally` clause removes the
working directory exactly when the runner created it and retention was not
requested; `ignore_errors=True` means the removal-failure oracle
(`eff.rmtreeFails`) influences nothing. -/
def run_model (st : RunnerState) (a : RunArgs) (eff : RunEffects) : RunOutcome :=
  let run_exec := pyOrDefault a.openmc_exec st.openmc_exec
  let run_time_exec := pyOrDefault a.time_executable st.time_executable
  let wd := prepare_workdir a.working_dir eff.tempDir
  let body : Except Str OpenMCRunResult × RunnerState × Bool :=
    if ¬ a.modelValid then
      (.error "model must provide an export_to_xml() method".toList, st, false)
    else if eff.exportRaises then
      (.error "export_to_xml raised".toList, st, false)
    else
      let time_output := wd.1 ++ ('/' :: "time-usage.txt".toList)
      let po := get_build_info st run_exec eff.fetched_build_info
      let effective := select_mpi_procs a.mpi_procs po.info
      match build_command run_exec a.openmc_args effective a.mpi_command run_time_exec
          time_output st.default_mpi_runner with
      | .error e => (.error e, po.state, po.probed)
      | .ok command =>
        (.ok
          { returncode := eff.sub.returncode,
            stdout := if a.capture_output then eff.sub.stdout else [],
            stderr := if a.capture_output then eff.sub.stderr else [],
            command := command,
            workdir := wd.1,
            threads := a.threads,
            mpi_procs := effective,
            time_usage := parse_time_output eff.timeFileContent,
            build_info := po.info,
            timing_stats :=
              if a.capture_output then parse_openmc_timing [eff.sub.stdout, eff.sub.stderr]
              else none,
            requested_mpi_procs := a.mpi_procs },
         po.state, po.probed)
  { result := body.1, state := body.2.1, probed := body.2.2,
    workdirPath := wd.1, ownsWorkdir := wd.2,
    removalAttempted := wd.2 && !a.keep_workdir }

/-- Model of the convenience wrapper `run_model_with_time`: an
`OpenMCRunner` instance is always truthy, so `runner or OpenMCRunner()`
uses the argument when present and otherwise a fresh default runner. -/
def run_model_with_time (runner : Option RunnerState) (a : RunArgs) (eff : RunEffects) : RunOutcome :=
  run_model (runner.getD defaultRunner) a eff

/-! ### Claim-side definitions (from the specification's words, for
comparison with the source translations above) -/

/-- Capability check as claim C1 states it: true exactly when the build
info is absent or the raw map contains an `MPI enabled`-style key whose
value trims and lowercases to one of `yes`/`true`/`1`. -/
def specSupportsMultiProcess (bi : Option OpenMCBuildInfo) : Bool :=
  match bi with
  | none => true
  | some info =>
    info.raw.any (fun p =>
      (p.1 = "MPI enabled".toList || p.1 = "MPI Enabled".toList) &&
      mpiYesValues.contains ((trim p.2).map Char.toLower))

/-! ### Claim theorems -/

/-- C1 counterexample: on a build info that is present but whose raw map
has no `MPI enabled`-style key at all, the code returns `true` while the
claim as stated requires `false`. -/
theorem c1_counterexample :
    build_supports_mpi (some { raw := [] }) = true ∧
    specSupportsMultiProcess (some { raw := [] }) = false ∧
    some ({ raw := [] } : OpenMCBuildInfo) ≠ (none : Option OpenMCBuildInfo) := by
  exact ⟨rfl, rfl, by simp⟩

/-- C1 (amended): the capability check returns `false` exactly when the
build info is present and the effective lookup — the value at
`MPI enabled` when present and non-empty, else the value at
`MPI Enabled` — yields a value that does not trim-and-lowercase to one of
`yes`/`true`/`1`; in every other case (build info absent, no effective
value, or an accepted value) it returns `true`. -/
theorem c1_mpi_capability (bi : Option OpenMCBuildInfo) :
    build_supports_mpi bi = false ↔
      ∃ info v, bi = some info ∧
        pyOrStr (dictGet info.raw "MPI enabled".toList)
          (dictGet info.raw "MPI Enabled".toList) = some v ∧
        ¬ mpiYesValues.contains ((trim v).map Char.toLower) := by
  cases bi with
  | none => simp [build_supports_mpi]
  | some info =>
    constructor
    · intro hfalse
      simp only [build_supports_mpi] at hfalse
      cases h : pyOrStr (dictGet info.raw "MPI enabled".toList)
          (dictGet info.raw "MPI Enabled".toList) with
      | none => rw [h] at hfalse; simp at hfalse
      | some v =>
        rw [h] at hfalse
        exact ⟨info, v, rfl, h, by simpa using hfalse⟩
    · rintro ⟨info', v, hinfo, hv, hnot⟩
      cases hinfo
      simp only [build_supports_mpi]
      rw [hv]
      simpa using hnot

/-- C1 witness: a present `MPI enabled` key with value `no` makes the
check return `false`. -/
theorem c1_mpi_capability_witness :
    build_supports_mpi (some { raw := [("MPI enabled".toList, "no".toList)] }) = false :=
  (c1_mpi_capability (some { raw := [("MPI enabled".toList, "no".toList)] })).2
    ⟨{ raw := [("MPI enabled".toList, "no".toList)] }, "no".toList, rfl, by decide, by decide⟩

/-- C2: the effective process count is `none` or equal to the request
(hence never greater); it is `none` whenever the request is absent or
`≤ 1`, and whenever the capability check reports no support; otherwise it
equals the request. -/
theorem c2_effective_procs (requested : Option Int) (bi : Option OpenMCBuildInfo) :
    (select_mpi_procs requested bi = none ∨ select_mpi_procs requested bi = requested) ∧
    (requested = none → select_mpi_procs requested bi = none) ∧
    (∀ p, requested = some p → p ≤ 1 → select_mpi_procs requested bi = none) ∧
    (build_supports_mpi bi = false → select_mpi_procs requested bi = none) ∧
    (∀ p, requested = some p → 1 < p → build_supports_mpi bi = true →
      select_mpi_procs requested bi = some p) := by
  cases requested with
  | none => simp [select_mpi_procs]
  | some p =>
    refine ⟨?_, by simp, ?_, ?_, ?_⟩
    · by_cases h1 : p = 0 ∨ p ≤ 1
      · exact Or.inl (by simp [select_mpi_procs, h1])
      · by_cases h2 : build_supports_mpi bi = true
        · exact Or.inr (by simp [select_mpi_procs, h1, h2])
        · exact Or.inl (by simp [select_mpi_procs, h1, h2])
    · intro q hq hle
      cases hq
      simp [select_mpi_procs, Or.inr hle]
    · intro hs
      simp [select_mpi_procs, hs, ite_self]
    · intro q hq hlt hs
      cases hq
      have h1 : ¬ (p = 0 ∨ p ≤ 1) := by omega
      simp [select_mpi_procs, h1, hs]

/-- C2 witness: request 4 with no build info gives 4; request 1 gives
nothing; request 4 against a build whose info disables MPI gives
nothing. -/
theorem c2_effective_procs_witness :
    select_mpi_procs (some 4) none = some 4 ∧
    select_mpi_procs (some 1) none = none ∧
    select_mpi_procs (some 4)
      (some { raw := [("MPI enabled".toList, "no".toList)] }) = none := by
  refine ⟨(c2_effective_procs (some 4) none).2.2.2.2 4 rfl (by norm_num) (by decide),
    (c2_effective_procs (some 1) none).2.2.1 1 rfl (by norm_num),
    (c2_effective_procs (some 4)
      (some { raw := [("MPI enabled".toList, "no".toList)] })).2.2.2.1 (by decide)⟩

/-- C5: the composed vector is exactly
`[profiler, -v, -o, output-path] ++ launcher ++ [executable] ++ extras`;
no launcher tokens appear when the effective count is absent; a supplied
(truthy) override is used token-for-token with `{procs}` substituted; and
with an effective count, no usable override, and no default launcher the
composer fails with the configuration error. -/
theorem c5_command_vector (ex te tout : Str) (args cmdO dflt : Option (List Str)) (eff : Option Int) :
    (∀ cmd, build_command ex args eff cmdO te tout dflt = .ok cmd →
      ∃ launcher, resolve_mpi_launcher dflt eff cmdO = .ok launcher ∧
        cmd = [te, "-v".toList, "-o".toList, tout] ++ launcher ++ [ex] ++
          (if truthyList args then args.getD [] else [])) ∧
    (eff = none →
      build_command ex args eff cmdO te tout dflt =
        .ok ([te, "-v".toList, "-o".toList, tout] ++ [ex] ++
          (if truthyList args then args.getD [] else []))) ∧
    (∀ p l, eff = some p → 1 < p → cmdO = some l → l ≠ [] →
      build_command ex args eff cmdO te tout dflt =
        .ok ([te, "-v".toList, "-o".toList, tout] ++ l.map (formatProcs p) ++ [ex] ++
          (if truthyList args then args.getD [] else []))) ∧
    (∀ p, eff = some p → 1 < p → truthyList cmdO = false → dflt = none →
      build_command ex args eff cmdO te tout dflt =
        .error "MPI requested but no launcher available".toList) := by
  refine ⟨?_, ?_, ?_, ?_⟩
  · intro cmd hcmd
    cases hres : resolve_mpi_launcher dflt eff cmdO with
    | error e => simp [build_command, hres] at hcmd
    | ok launcher =>
      refine ⟨launcher, rfl, ?_⟩
      simp only [build_command, hres] at hcmd
      cases hcmd
      simp
  · intro h
    subst h
    simp [build_command, resolve_mpi_launcher]
  · intro p l hp hc hl hnil
    subst hp
    subst hl
    have h1 : ¬ (p = 0 ∨ p ≤ 1) := by omega
    have h2 : l.isEmpty = false := by simpa using hnil
    simp [build_command, resolve_mpi_launcher, h1, truthyList, h2]
  · intro p hp hlt hcf hd
    subst hp
    subst hd
    have h1 : ¬ (p = 0 ∨ p ≤ 1) := by omega
    simp [build_command, resolve_mpi_launcher, h1, hcf,
      show truthyList (none : Option (List Str)) = false from rfl]

/-- C5 witness at concrete inputs: a serial command, a templated override
with `{procs}` substituted by 4, and the configuration error when a
parallel run has no launcher. -/
theorem c5_command_vector_witness :
    build_command "openmc".toList none none none "/usr/bin/time".toList "out".toList
        (some ["mpirun".toList]) =
      .ok ["/usr/bin/time".toList, "-v".toList, "-o".toList, "out".toList, "openmc".toList] ∧
    build_command "openmc".toList none (some 4) (some ["srun".toList, "-n{procs}".toList])
        "/usr/bin/time".toList "out".toList none =
      .ok ["/usr/bin/time".toList, "-v".toList, "-o".toList, "out".toList,
        "srun".toList, "-n4".toList, "openmc".toList] ∧
    build_command "openmc".toList none (some 4) none "/usr/bin/time".toList "out".toList none =
      .error "MPI requested but no launcher available".toList := by
  refine ⟨?_, ?_, ?_⟩
  · have h := (c5_command_vector "openmc".toList "/usr/bin/time".toList "out".toList
      none none (some ["mpirun".toList]) none).2.1 rfl
    exact h.trans (by decide)
  · have h := (c5_command_vector "openmc".toList "/usr/bin/time".toList "out".toList
      none (some ["srun".toList, "-n{procs}".toList]) none (some 4)).2.2.1 4
      ["srun".toList, "-n{procs}".toList] rfl (by norm_num) rfl (by decide)
    exact h.trans (by decide)
  · exact (c5_command_vector "openmc".toList "/usr/bin/time".toList "out".toList
      none none none (some 4)).2.2.2 4 rfl (by norm_num) (by decide) rfl

/-! ### Helper lemmas about launcher resolution and `run_model` -/

/-- The launcher resolves without error whenever no process count is
requested, a truthy override is supplied, or a truthy default launcher is
configured. -/
theorem resolve_ok (dflt : Option (List Str)) (procs : Option Int) (cmdO : Option (List Str))
    (h : procs = none ∨ truthyList cmdO = true ∨ truthyList dflt = true) :
    ∃ l, resolve_mpi_launcher dflt procs cmdO = .ok l := by
  cases procs with
  | none => exact ⟨[], rfl⟩
  | some p =>
    by_cases h1 : p = 0 ∨ p ≤ 1
    · exact ⟨[], by simp [resolve_mpi_launcher, h1]⟩
    · rcases h with h | h | h
      · cases h
      · exact ⟨(cmdO.getD []).map (formatProcs p), by simp [resolve_mpi_launcher, h1, h]⟩
      · by_cases h2 : truthyList cmdO = true
        · exact ⟨(cmdO.getD []).map (formatProcs p), by simp [resolve_mpi_launcher, h1, h2]⟩
        · exact ⟨dflt.getD [] ++ ["-np".toList, (toString p).toList],
            by simp [resolve_mpi_launcher, h1,
              show truthyList cmdO = false by simpa using h2, h]⟩

/-- Once the model has been exported, whether the probe ran is decided by
`_get_build_info` alone, on every remaining branch. -/
theorem run_model_probed (st : RunnerState) (a : RunArgs) (eff : RunEffects)
    (hm : a.modelValid = true) (he : eff.exportRaises = false) :
    (run_model st a eff).probed =
      (get_build_info st (pyOrDefault a.openmc_exec st.openmc_exec) eff.fetched_build_info).probed := by
  simp only [run_model, hm, he]
  simp only [not_true, if_false, Bool.false_eq_true, ite_false]
  split <;> rfl

/-- Once the model has been exported, the runner state afterwards is the
one `_get_build_info` produced, on every remaining branch. -/
theorem run_model_state (st : RunnerState) (a : RunArgs) (eff : RunEffects)
    (hm : a.modelValid = true) (he : eff.exportRaises = false) :
    (run_model st a eff).state =
      (get_build_info st (pyOrDefault a.openmc_exec st.openmc_exec) eff.fetched_build_info).state := by
  simp only [run_model, hm, he]
  simp only [not_true, if_false, Bool.false_eq_true, ite_false]
  split <;> rfl

/-- C3: whenever the subprocess is reached (valid model, successful
export, resolvable launcher), `run_model` returns a fully assembled
result — never an error — whose `returncode` is the literal subprocess
exit code, for every exit code, and whose resource usage is parsed from
the report file regardless of that exit code. -/
theorem c3_literal_returncode (st : RunnerState) (a : RunArgs) (eff : RunEffects)
    (hm : a.modelValid = true) (he : eff.exportRaises = false)
    (hl : a.mpi_procs = none ∨ truthyList a.mpi_command = true ∨
      truthyList st.default_mpi_runner = true) :
    ∃ r, (run_model st a eff).result = Except.ok r ∧
      r.returncode = eff.sub.returncode ∧
      r.time_usage = parse_time_output eff.timeFileContent ∧
      r.requested_mpi_procs = a.mpi_procs ∧
      r.workdir = (run_model st a eff).workdirPath := by
  have h' : select_mpi_procs a.mpi_procs
        (get_build_info st (pyOrDefault a.openmc_exec st.openmc_exec) eff.fetched_build_info).info
          = none ∨
      truthyList a.mpi_command = true ∨ truthyList st.default_mpi_runner = true := by
    rcases hl with h | h | h
    · exact Or.inl (by simp [h, select_mpi_procs])
    · exact Or.inr (Or.inl h)
    · exact Or.inr (Or.inr h)
  obtain ⟨l, hres⟩ := resolve_ok st.default_mpi_runner _ a.mpi_command h'
  simp only [run_model, hm, he]
  simp only [not_true, if_false, Bool.false_eq_true, ite_false]
  simp only [build_command, hres]
  exact ⟨_, rfl, rfl, rfl, rfl, rfl⟩

/-- C3 witness: a failing subprocess (exit code 1) still yields a fully
assembled `ok` result carrying `returncode = 1`. -/
theorem c3_literal_returncode_witness :
    ∃ r, (run_model defaultRunner { modelValid := true }
        { exportRaises := false, fetched_build_info := none,
          sub := { returncode := 1, stdout := [], stderr := [] },
          timeFileContent := none, tempDir := "/tmp/openmc-bench-x".toList,
          rmtreeFails := false }).result = Except.ok r ∧
      r.returncode = 1 ∧
      r.time_usage = parse_time_output none ∧
      r.requested_mpi_procs = none ∧
      r.workdir = (run_model defaultRunner { modelValid := true }
        { exportRaises := false, fetched_build_info := none,
          sub := { returncode := 1, stdout := [], stderr := [] },
          timeFileContent := none, tempDir := "/tmp/openmc-bench-x".toList,
          rmtreeFails := false }).workdirPath :=
  c3_literal_returncode defaultRunner { modelValid := true }
    { exportRaises := false, fetched_build_info := none,
      sub := { returncode := 1, stdout := [], stderr := [] },
      timeFileContent := none, tempDir := "/tmp/openmc-bench-x".toList,
      rmtreeFails := false } rfl rfl (Or.inl rfl)

/-- C9: a caller-supplied working directory is never removed whatever the
retention flag; a runner-created directory has removal attempted exactly
when retention is not requested, uniformly over every exit path (the
removal decision is independent of the body's outcome); and a removal
failure (`rmtreeFails`) changes nothing about the call's outcome. -/
theorem c9_workdir_cleanup (st : RunnerState) (a : RunArgs) (eff : RunEffects) (b : Bool) :
    (∀ w, a.working_dir = some w →
      (run_model st a eff).removalAttempted = false ∧
      (run_model st a eff).ownsWorkdir = false) ∧
    (a.working_dir = none →
      (run_model st a eff).removalAttempted = !a.keep_workdir ∧
      (run_model st a eff).ownsWorkdir = true) ∧
    run_model st a eff = run_model st a { eff with rmtreeFails := b } := by
  refine ⟨?_, ?_, ?_⟩
  · intro w hw
    constructor <;> simp [run_model, prepare_workdir, hw]
  · intro hw
    constructor <;> simp [run_model, prepare_workdir, hw]
  · cases eff
    rfl

/-- C9 witness: with a caller-supplied directory and retention off no
removal is attempted; with a runner-created directory and retention off
removal is attempted even when the run fails before the subprocess; and
the outcome ignores the removal-failure oracle. -/
theorem c9_workdir_cleanup_witness :
    ((run_model defaultRunner { modelValid := true, working_dir := some "/d".toList }
      { exportRaises := false, fetched_build_info := none,
        sub := { returncode := 0, stdout := [], stderr := [] },
        timeFileContent := none, tempDir := "/t".toList,
        rmtreeFails := false }).removalAttempted = false) ∧
    ((run_model defaultRunner { modelValid := false }
      { exportRaises := false, fetched_build_info := none,
        sub := { returncode := 0, stdout := [], stderr := [] },
        timeFileContent := none, tempDir := "/t".toList,
        rmtreeFails := false }).removalAttempted = !false) ∧
    run_model defaultRunner { modelValid := true }
      { exportRaises := false, fetched_build_info := none,
        sub := { returncode := 0, stdout := [], stderr := [] },
        timeFileContent := none, tempDir := "/t".toList,
        rmtreeFails := false } =
    run_model defaultRunner { modelValid := true }
      { exportRaises := false, fetched_build_info := none,
        sub := { returncode := 0, stdout := [], stderr := [] },
        timeFileContent := none, tempDir := "/t".toList,
        rmtreeFails := true } := by
  refine ⟨?_, ?_, ?_⟩
  · exact ((c9_workdir_cleanup defaultRunner
      { modelValid := true, working_dir := some "/d".toList }
      { exportRaises := false, fetched_build_info := none,
        sub := { returncode := 0, stdout := [], stderr := [] },
        timeFileContent := none, tempDir := "/t".toList,
        rmtreeFails := false } false).1 "/d".toList rfl).1
  · exact ((c9_workdir_cleanup defaultRunner { modelValid := false }
      { exportRaises := false, fetched_build_info := none,
        sub := { returncode := 0, stdout := [], stderr := [] },
        timeFileContent := none, tempDir := "/t".toList,
        rmtreeFails := false } false).2.1 rfl).1
  · exact (c9_workdir_cleanup defaultRunner { modelValid := true }
      { exportRaises := false, fetched_build_info := none,
        sub := { returncode := 0, stdout := [], stderr := [] },
        timeFileContent := none, tempDir := "/t".toList,
        rmtreeFails := false } true).2.2

/-- Probing never changes which executable the runner is configured
with. -/
theorem get_build_info_exec (st : RunnerState) (ex : Str) (f : Option OpenMCBuildInfo) :
    (get_build_info st ex f).state.openmc_exec = st.openmc_exec := by
  simp only [get_build_info]
  split
  · rfl
  · split <;> rfl

/-- C6 counterexample: two consecutive probes of the same non-default
path both execute the probe subprocess (even though the first succeeded),
and two consecutive probes of the default path also both execute it when
the probe fails — so the probe does not run "at most once per distinct
executable path". -/
theorem c6_counterexample :
    probeTrace defaultRunner
      [("custom".toList, some { raw := [] }), ("custom".toList, some { raw := [] })] =
        [true, true] ∧
    probeTrace defaultRunner
      [("openmc".toList, none), ("openmc".toList, none)] = [true, true] := by
  exact ⟨by decide, by decide⟩

/-- C6 (amended): a `_get_build_info` call skips the probe exactly when a
result is cached and the requested path equals the runner's default
configured path, in which case it returns the cached value and leaves the
state unchanged; otherwise it executes a fresh probe, returns the probe's
result, stores it (also when absent) only when the path is the default
one, and leaves the state unchanged for any other path. -/
theorem c6_build_info_cache (st : RunnerState) (ex : Str) (f : Option OpenMCBuildInfo) :
    ((get_build_info st ex f).probed = false ↔
      st.cached_build_info.isSome = true ∧ ex = st.openmc_exec) ∧
    ((get_build_info st ex f).probed = false →
      (get_build_info st ex f).info = st.cached_build_info ∧
      (get_build_info st ex f).state = st) ∧
    ((get_build_info st ex f).probed = true → (get_build_info st ex f).info = f) ∧
    (ex = st.openmc_exec → (get_build_info st ex f).probed = true →
      (get_build_info st ex f).state = { st with cached_build_info := f }) ∧
    (ex ≠ st.openmc_exec →
      (get_build_info st ex f).probed = true ∧ (get_build_info st ex f).state = st) := by
  by_cases h : st.cached_build_info.isSome = true ∧ ex = st.openmc_exec
  · refine ⟨by simp [get_build_info, h], ?_, ?_, ?_, ?_⟩
    · intro hp
      constructor <;> simp [get_build_info, h]
    · intro hp
      simp [get_build_info, h] at hp
    · intro hx hp
      simp [get_build_info, h] at hp
    · intro hx
      exact absurd h.2 hx
  · refine ⟨by simp [get_build_info, h], ?_, ?_, ?_, ?_⟩
    · intro hp
      simp [get_build_info, h] at hp
    · intro hp
      simp [get_build_info, h]
    · intro hx hp
      have hc : st.cached_build_info.isSome = false := by
        rcases Bool.eq_false_or_eq_true st.cached_build_info.isSome with hc | hc
        · exact absurd ⟨hc, hx⟩ h
        · exact hc
      simp [get_build_info, hc, hx]
    · intro hx
      refine ⟨by simp [get_build_info, h], ?_⟩
      simp [get_build_info, h, hx]

/-- C6 witness: once the default path has been probed successfully, a
second default-path call is served from the cache without probing; a
non-default path probes afresh and leaves the state unchanged. -/
theorem c6_build_info_cache_witness :
    (get_build_info { defaultRunner with cached_build_info := some { raw := [] } }
      "openmc".toList none).probed = false ∧
    (get_build_info { defaultRunner with cached_build_info := some { raw := [] } }
      "openmc".toList none).info = some { raw := [] } ∧
    (get_build_info defaultRunner "custom".toList (some { raw := [] })).probed = true ∧
    (get_build_info defaultRunner "custom".toList (some { raw := [] })).state = defaultRunner := by
  refine ⟨?_, ?_, ?_, ?_⟩
  · exact (c6_build_info_cache { defaultRunner with cached_build_info := some { raw := [] } }
      "openmc".toList none).1.2 ⟨by decide, by decide⟩
  · exact (((c6_build_info_cache { defaultRunner with cached_build_info := some { raw := [] } }
      "openmc".toList none).2.1 ((c6_build_info_cache _ _ _).1.2 ⟨by decide, by decide⟩)).1).trans
      (by decide)
  · exact ((c6_build_info_cache defaultRunner "custom".toList (some { raw := [] })).2.2.2.2
      (by decide)).1
  · exact ((c6_build_info_cache defaultRunner "custom".toList (some { raw := [] })).2.2.2.2
      (by decide)).2

/-- C10: a wrapper call without a runner argument uses a fresh default
runner whose cache is empty, so the version probe executes on every such
call; cross-call caching occurs only when the caller threads the same
runner through, in which case a second call after a successful probe does
not probe again. -/
theorem c10_fresh_runner (a : RunArgs) (eff eff2 : RunEffects)
    (hm : a.modelValid = true) (he : eff.exportRaises = false) (he2 : eff2.exportRaises = false)
    (hex : a.openmc_exec = none) :
    (run_model_with_time none a eff).probed = true ∧
    (run_model_with_time none a eff2).probed = true ∧
    (∀ info, eff.fetched_build_info = some info →
      (run_model_with_time (some (run_model_with_time (some defaultRunner) a eff).state)
        a eff2).probed = false) := by
  have hdef : pyOrDefault a.openmc_exec defaultRunner.openmc_exec = defaultRunner.openmc_exec := by
    simp [hex, pyOrDefault]
  refine ⟨?_, ?_, ?_⟩
  · rw [show run_model_with_time none a eff = run_model defaultRunner a eff from rfl,
      run_model_probed defaultRunner a eff hm he, hdef]
    simp [get_build_info, defaultRunner, runnerInit]
  · rw [show run_model_with_time none a eff2 = run_model defaultRunner a eff2 from rfl,
      run_model_probed defaultRunner a eff2 hm he2, hdef]
    simp [get_build_info, defaultRunner, runnerInit]
  · intro info hinfo
    rw [show run_model_with_time (some (run_model_with_time (some defaultRunner) a eff).state)
        a eff2 = run_model (run_model defaultRunner a eff).state a eff2 from rfl,
      run_model_probed _ a eff2 hm he2,
      run_model_state defaultRunner a eff hm he]
    have hst : (get_build_info defaultRunner
        (pyOrDefault a.openmc_exec defaultRunner.openmc_exec) eff.fetched_build_info).state =
        { defaultRunner with cached_build_info := eff.fetched_build_info } := by
      rw [hdef]
      simp [get_build_info, defaultRunner, runnerInit]
    rw [hst]
    simp [get_build_info, hinfo, hex, pyOrDefault]

/-- C10 witness: with no runner argument both calls probe; passing the
state from a first successful call makes the second call skip the
probe. -/
theorem c10_fresh_runner_witness :
    (run_model_with_time none { modelValid := true }
      { exportRaises := false, fetched_build_info := some { raw := [] },
        sub := { returncode := 0, stdout := [], stderr := [] },
        timeFileContent := none, tempDir := "/t".toList, rmtreeFails := false }).probed = true ∧
    (run_model_with_time (some (run_model_with_time (some defaultRunner) { modelValid := true }
        { exportRaises := false, fetched_build_info := some { raw := [] },
          sub := { returncode := 0, stdout := [], stderr := [] },
          timeFileContent := none, tempDir := "/t".toList, rmtreeFails := false }).state)
      { modelValid := true }
      { exportRaises := false, fetched_build_info := some { raw := [] },
        sub := { returncode := 0, stdout := [], stderr := [] },
        timeFileContent := none, tempDir := "/t".toList, rmtreeFails := false }).probed = false := by
  refine ⟨?_, ?_⟩
  · exact (c10_fresh_runner { modelValid := true }
      { exportRaises := false, fetched_build_info := some { raw := [] },
        sub := { returncode := 0, stdout := [], stderr := [] },
        timeFileContent := none, tempDir := "/t".toList, rmtreeFails := false }
      { exportRaises := false, fetched_build_info := some { raw := [] },
        sub := { returncode := 0, stdout := [], stderr := [] },
        timeFileContent := none, tempDir := "/t".toList, rmtreeFails := false }
      rfl rfl rfl rfl).1
  · exact (c10_fresh_runner { modelValid := true }
      { exportRaises := false, fetched_build_info := some { raw := [] },
        sub := { returncode := 0, stdout := [], stderr := [] },
        timeFileContent := none, tempDir := "/t".toList, rmtreeFails := false }
      { exportRaises := false, fetched_build_info := some { raw := [] },
        sub := { returncode := 0, stdout := [], stderr := [] },
        timeFileContent := none, tempDir := "/t".toList, rmtreeFails := false }
      rfl rfl rfl rfl).2.2 { raw := [] } rfl

/-! ### Association-list (dict) lemmas -/

/-- Updating the entry of a present key makes lookup return the new
value. -/
theorem dictGet_map_update (d : Dict α) (k : Str) (v : α) :
    containsKey d k = true →
    dictGet (d.map (fun p => if p.1 = k then (k, v) else p)) k = some v := by
  induction d with
  | nil => intro h; simp [containsKey] at h
  | cons p ds ih =>
    intro h
    by_cases hp : p.1 = k
    · simp [dictGet, hp]
    · have h' : containsKey ds k = true := by simpa [containsKey, hp] using h
      simp [dictGet, hp, ih h']

/-- Appending a fresh key makes lookup return its value. -/
theorem dictGet_append_new (d : Dict α) (k : Str) (v : α) :
    containsKey d k = false → dictGet (d ++ [(k, v)]) k = some v := by
  induction d with
  | nil => intro h; simp [dictGet]
  | cons p ds ih =>
    intro h
    simp only [containsKey, Bool.or_eq_false_iff] at h
    have hp : ¬ p.1 = k := by simpa using h.1
    simp [dictGet, hp, ih h.2]

/-- Lookup after insertion of the same key. -/
theorem dictGet_insert_self (d : Dict α) (k : Str) (v : α) :
    dictGet (dictInsert d k v) k = some v := by
  unfold dictInsert
  by_cases h : containsKey d k = true
  · rw [if_pos h]; exact dictGet_map_update d k v h
  · rw [if_neg h]; exact dictGet_append_new d k v (by simpa using h)

/-- The in-place update leaves other keys' lookups unchanged. -/
theorem dictGet_map_update_ne (d : Dict α) (k kq : Str) (v : α) (hne : kq ≠ k) :
    dictGet (d.map (fun p => if p.1 = k then (k, v) else p)) kq = dictGet d kq := by
  induction d with
  | nil => rfl
  | cons p ds ih =>
    by_cases hp : p.1 = k
    · have h1 : ¬ (k = kq) := fun hh => hne hh.symm
      have h2 : ¬ (p.1 = kq) := by rw [hp]; exact h1
      simp [dictGet, hp, h1, h2, ih]
    · by_cases hpk : p.1 = kq <;> simp [dictGet, hp, hpk, ih, hne]

/-- Appending a fresh key leaves other keys' lookups unchanged. -/
theorem dictGet_append_ne (d : Dict α) (k kq : Str) (v : α) (hne : kq ≠ k) :
    dictGet (d ++ [(k, v)]) kq = dictGet d kq := by
  induction d with
  | nil => simp [dictGet, Ne.symm hne]
  | cons p ds ih => by_cases hpk : p.1 = kq <;> simp [dictGet, hpk, ih]

/-- Insertion leaves other keys' lookups unchanged. -/
theorem dictGet_insert_ne (d : Dict α) (k kq : Str) (v : α) (hne : kq ≠ k) :
    dictGet (dictInsert d k v) kq = dictGet d kq := by
  unfold dictInsert
  by_cases h : containsKey d k = true
  · rw [if_pos h]; exact dictGet_map_update_ne d k kq v hne
  · rw [if_neg h]; exact dictGet_append_ne d k kq v hne

/-- Key presence distributes over append. -/
theorem containsKey_append (d e : Dict α) (k : Str) :
    containsKey (d ++ e) k = (containsKey d k || containsKey e k) := by
  induction d with
  | nil => simp [containsKey]
  | cons p ds ih => simp [containsKey, ih, Bool.or_assoc]

/-- The in-place update preserves presence of any present key. -/
theorem containsKey_map_update (d : Dict α) (k kq : Str) (v : α) :
    containsKey d kq = true →
    containsKey (d.map (fun p => if p.1 = k then (k, v) else p)) kq = true := by
  induction d with
  | nil => intro h; simp [containsKey] at h
  | cons p ds ih =>
    intro h
    by_cases hp : p.1 = kq
    · by_cases hpk : p.1 = k
      · have hkq : k = kq := by rw [← hpk, hp]
        simp [containsKey, hpk, hkq]
      · have hqk : ¬ (kq = k) := by rw [← hp]; exact hpk
        simp [containsKey, hpk, hp, hqk]
    · have h' : containsKey ds kq = true := by simpa [containsKey, hp] using h
      by_cases hpk : p.1 = k <;> simp [containsKey, hpk, ih h']

/-- The inserted key is present afterwards. -/
theorem containsKey_insert_self (d : Dict α) (k : Str) (v : α) :
    containsKey (dictInsert d k v) k = true := by
  unfold dictInsert
  by_cases h : containsKey d k = true
  · rw [if_pos h]; exact containsKey_map_update d k k v h
  · rw [if_neg h]; rw [containsKey_append]; simp [containsKey]

/-- Insertion preserves presence of any present key. -/
theorem containsKey_insert_of (d : Dict α) (k kq : Str) (v : α) (h : containsKey d kq = true) :
    containsKey (dictInsert d k v) kq = true := by
  unfold dictInsert
  by_cases hc : containsKey d k = true
  · rw [if_pos hc]; exact containsKey_map_update d k kq v h
  · rw [if_neg hc]; rw [containsKey_append]; simp [h]

/-! ### String lemmas: `trim` and `splitOnce` -/

/-- Right-trimming yields a prefix of the original string. -/
theorem trimRight_prefix (s : Str) : trimRight s <+: s := by
  simpa [List.rdropWhile, trimRight] using List.rdropWhile_prefix pyIsSpace s

/-- The head surviving `dropWhile` fails the predicate. -/
theorem dropWhile_head_false (p : Char → Bool) (l : Str) (c : Char) (t : Str)
    (h : l.dropWhile p = c :: t) : p c = false := by
  induction l with
  | nil => simp [List.dropWhile] at h
  | cons a l ih =>
    rw [List.dropWhile_cons] at h
    by_cases hp : p a
    · rw [if_pos hp] at h; exact ih h
    · rw [if_neg hp] at h
      cases h
      simpa using hp

/-- A stripped line starts with a non-whitespace character. -/
theorem trim_head_not_space (l : Str) (c : Char) (t : Str) (h : trim l = c :: t) :
    pyIsSpace c = false := by
  obtain ⟨r, hr⟩ := show trim l <+: trimLeft l from trimRight_prefix _
  have hdw : l.dropWhile pyIsSpace = c :: (t ++ r) := by
    show trimLeft l = _
    rw [← hr, h]
    simp
  exact dropWhile_head_false pyIsSpace l c (t ++ r) hdw

/-- Decomposition at a successful first-occurrence split. -/
theorem splitOnce_append (sep s k v : Str) (h : splitOnce sep s = some (k, v)) :
    s = k ++ sep ++ v := by
  induction s generalizing k v with
  | nil => simp [splitOnce] at h
  | cons c rest ih =>
    unfold splitOnce at h
    by_cases hp : sep.isPrefixOf (c :: rest)
    · rw [if_pos hp] at h
      obtain ⟨t, ht⟩ := List.isPrefixOf_iff_prefix.mp hp
      simp only [Option.some.injEq, Prod.mk.injEq] at h
      obtain ⟨hk, hv⟩ := h
      subst hk
      subst hv
      rw [← ht]
      simp [List.drop_left]
    · rw [if_neg hp] at h
      cases hrec : splitOnce sep rest with
      | none => rw [hrec] at h; cases h
      | some pr =>
        obtain ⟨pre, post⟩ := pr
        rw [hrec] at h
        simp only [Option.some.injEq, Prod.mk.injEq] at h
        obtain ⟨hk, hv⟩ := h
        have hrest := ih pre post hrec
        subst hk
        subst hv
        simp [hrest]

/-- The key of a colon key/value line never trims to the version marker
unless the stripped line itself starts with the marker. -/
theorem colon_key_ne_marker (l k v : Str)
    (hsp : splitOnce [':'] (trim l) = some (k, v))
    (hm : ¬ markerChars.isPrefixOf (trim l) = true) :
    trim k ≠ markerChars := by
  intro hk
  apply hm
  rw [List.isPrefixOf_iff_prefix]
  have hs := splitOnce_append [':'] (trim l) k v hsp
  cases hk0 : k with
  | nil =>
    rw [hk0] at hk
    exact absurd hk (by decide)
  | cons c t =>
    have hc : pyIsSpace c = false := by
      apply trim_head_not_space l c (t ++ ([':'] ++ v))
      rw [hs, hk0]
      simp
    have h1 : trimLeft k = k := by
      rw [hk0]
      simp [trimLeft, List.dropWhile_cons, hc]
    have h2 : trim k <+: k := by
      unfold trim
      rw [h1]
      exact trimRight_prefix k
    rw [hk] at h2
    have h3 : k <+: trim l := by
      rw [hs]
      exact ⟨[':'] ++ v, by simp⟩
    exact h2.trans h3

/-! ### Claim-side definitions for C7 -/

/-- Version field as claim C7 states it: the first non-empty stripped line
starting with the marker determines the version (text after the marker,
trimmed). -/
def firstMarkerVersion : List Str → Option Str
  | [] => none
  | l :: ls =>
    let s := trim l
    if s ≠ [] ∧ markerChars.isPrefixOf s then some (trim (s.drop markerChars.length))
    else firstMarkerVersion ls

/-- Version field as amended: the last such line wins (the parser
overwrites the entry on every marker line). -/
def lastMarkerVersion : List Str → Option Str
  | [] => none
  | l :: ls =>
    match lastMarkerVersion ls with
    | some v => some v
    | none =>
      let s := trim l
      if s ≠ [] ∧ markerChars.isPrefixOf s then some (trim (s.drop markerChars.length))
      else none

/-- Lookup of the version key through the parser's fold, with the last
marker line winning. -/
theorem versionFold_lookup (lines : List Str) (acc : Dict Str) :
    dictGet (lines.foldl versionLineStep acc) markerChars =
      (match lastMarkerVersion lines with
       | some v => some v
       | none => dictGet acc markerChars) := by
  induction lines generalizing acc with
  | nil => simp [lastMarkerVersion]
  | cons l ls ih =>
    rw [List.foldl_cons, ih]
    cases hls : lastMarkerVersion ls with
    | some v => simp [lastMarkerVersion, hls]
    | none =>
      simp only [lastMarkerVersion, hls]
      unfold versionLineStep
      by_cases h0 : trim l = []
      · simp [h0]
      · by_cases hm : markerChars.isPrefixOf (trim l) = true
        · simp [h0, hm, dictGet_insert_self]
        · cases hsp : splitOnce [':'] (trim l) with
          | none => simp [h0, hm, hsp]
          | some kv =>
            obtain ⟨k, v⟩ := kv
            have hne : markerChars ≠ trim k :=
              fun hh => colon_key_ne_marker l k v hsp hm hh.symm
            simp [h0, hm, hsp, dictGet_insert_ne _ _ _ _ hne]

/-- The raw key/value pair contributed for a non-marker key per the
amended claim C7: the trimmed value of the last non-empty, non-marker
line containing a colon whose trimmed key is the given one (`none` when
no such line exists). -/
def lastColonValue : List Str → Str → Option Str
  | [], _ => none
  | l :: ls, kk =>
    match lastColonValue ls kk with
    | some v => some v
    | none =>
      if trim l ≠ [] ∧ ¬ (markerChars.isPrefixOf (trim l) = true) then
        match splitOnce [':'] (trim l) with
        | some (k, v) => if trim k = kk then some (trim v) else none
        | none => none
      else none

/-- Lookup of any non-marker key through the parser's fold: the stored
value is the trimmed value of the last colon line contributing that
trimmed key (falling back to the accumulator). -/
theorem versionFold_lookup_colon (lines : List Str) (acc : Dict Str) (kk : Str)
    (hkk : kk ≠ markerChars) :
    dictGet (lines.foldl versionLineStep acc) kk =
      (match lastColonValue lines kk with
       | some v => some v
       | none => dictGet acc kk) := by
  induction lines generalizing acc with
  | nil => simp [lastColonValue]
  | cons l ls ih =>
    rw [List.foldl_cons, ih]
    cases hls : lastColonValue ls kk with
    | some v => simp [lastColonValue, hls]
    | none =>
      simp only [lastColonValue, hls]
      unfold versionLineStep
      by_cases h0 : trim l = []
      · simp [h0]
      · by_cases hm : markerChars.isPrefixOf (trim l) = true
        · simp [h0, hm, dictGet_insert_ne _ _ _ _ hkk]
        · cases hsp : splitOnce [':'] (trim l) with
          | none => simp [h0, hm, hsp]
          | some kv =>
            obtain ⟨k, v⟩ := kv
            by_cases hk : trim k = kk
            · subst hk
              simp [h0, hm, hsp, dictGet_insert_self]
            · simp [h0, hm, hsp, hk, dictGet_insert_ne _ _ _ _ (fun hh => hk hh.symm)]

/-- A colon line present among the input lines guarantees a contributed
value for its trimmed key. -/
theorem lastColonValue_isSome (lines : List Str) (l : Str) (hl : l ∈ lines)
    (h0 : trim l ≠ []) (hm : ¬ markerChars.isPrefixOf (trim l) = true)
    (k v : Str) (hsp : splitOnce [':'] (trim l) = some (k, v)) :
    (lastColonValue lines (trim k)).isSome = true := by
  induction lines with
  | nil => cases hl
  | cons l0 ls ih =>
    rcases List.mem_cons.mp hl with rfl | hmem
    · cases hls : lastColonValue ls (trim k) with
      | some v2 => simp [lastColonValue, hls]
      | none =>
        simp only [lastColonValue, hls]
        simp [h0, hm, hsp]
    · cases hls : lastColonValue ls (trim k) with
      | some v2 => simp [lastColonValue, hls]
      | none =>
        have := ih hmem
        rw [hls] at this
        simp at this

/-- C7 counterexample: with two marker lines, the parser stores the last
one's version text, while the claim as stated picks the first. -/
theorem c7_counterexample :
    dictGet (parse_openmc_version_output
      ["OpenMC version 1.0".toList, "OpenMC version 2.0".toList]) markerChars =
        some "2.0".toList ∧
    firstMarkerVersion ["OpenMC version 1.0".toList, "OpenMC version 2.0".toList] =
      some "1.0".toList ∧
    ("2.0".toList : Str) ≠ "1.0".toList := by
  refine ⟨by decide, by decide, by decide⟩

/-- C7 (amended): the LAST non-empty line starting with the literal
version marker determines the version field (text after the marker,
trimmed), and every other non-empty line containing a colon contributes a
raw key/value pair with whitespace trimmed on both sides: the parsed map
holds, under the line's trimmed key, exactly the trimmed value of the
last such line with that key — in particular a value is present. -/
theorem c7_version_banner (lines : List Str) :
    dictGet (parse_openmc_version_output lines) markerChars = lastMarkerVersion lines ∧
    (∀ l ∈ lines, trim l ≠ [] → ¬ markerChars.isPrefixOf (trim l) = true →
      ∀ k v, splitOnce [':'] (trim l) = some (k, v) →
        dictGet (parse_openmc_version_output lines) (trim k) = lastColonValue lines (trim k) ∧
        (lastColonValue lines (trim k)).isSome = true) := by
  constructor
  · rw [parse_openmc_version_output, versionFold_lookup]
    cases lastMarkerVersion lines <;> simp [dictGet]
  · intro l hl h0 hm k v hsp
    have hne : trim k ≠ markerChars := colon_key_ne_marker l k v hsp hm
    constructor
    · rw [parse_openmc_version_output, versionFold_lookup_colon lines [] (trim k) hne]
      cases lastColonValue lines (trim k) <;> simp [dictGet]
    · exact lastColonValue_isSome lines l hl h0 hm k v hsp

/-- C7 witness: a banner with a version line and a commit line parses
with the version text, and stores under `Commit hash` the trimmed value
`abc123` of that colon line. -/
theorem c7_version_banner_witness :
    dictGet (parse_openmc_version_output
      ["OpenMC version 0.13.3".toList, " Commit hash: abc123 ".toList]) markerChars =
        some "0.13.3".toList ∧
    dictGet (parse_openmc_version_output
      ["OpenMC version 0.13.3".toList, " Commit hash: abc123 ".toList])
      "Commit hash".toList = some "abc123".toList := by
  constructor
  · exact (c7_version_banner
      ["OpenMC version 0.13.3".toList, " Commit hash: abc123 ".toList]).1.trans (by decide)
  · have h := (c7_version_banner
      ["OpenMC version 0.13.3".toList, " Commit hash: abc123 ".toList]).2
      " Commit hash: abc123 ".toList (by decide) (by decide) (by decide)
      "Commit hash".toList " abc123".toList (by decide)
    have h2 := h.1.trans (show lastColonValue
      ["OpenMC version 0.13.3".toList, " Commit hash: abc123 ".toList]
      (trim "Commit hash".toList) = some "abc123".toList from by decide)
    exact (by decide : ("Commit hash".toList : Str) =
      trim "Commit hash".toList) ▸ h2

/-! ### Claim-side definitions for C4 -/

/-- Elapsed-time conversion as claim C4 states it: the form
`[[H:]M:]S[.frac]` with hours AND minutes optional, so a bare seconds
value is converted too. -/
def specElapsedClaim (v : Str) : Option ℚ :=
  match splitAll ':' v with
  | [s] => pyFloat s
  | [m, s] => (pyInt m).bind (fun mi => (pyFloat s).map (fun sq => (mi : ℚ) * 60 + sq))
  | [h, m, s] =>
    (pyInt h).bind (fun hi => (pyInt m).bind (fun mi =>
      (pyFloat s).map (fun sq => (hi : ℚ) * 3600 + (mi : ℚ) * 60 + sq)))
  | _ => none

/-- Elapsed-time conversion as amended: the form `[H:]M:S[.frac]` with
minutes required; any other shape yields absence. -/
def specElapsedAmended (v : Str) : Option ℚ :=
  match splitAll ':' v with
  | [m, s] => (pyInt m).bind (fun mi => (pyFloat s).map (fun sq => (mi : ℚ) * 60 + sq))
  | [h, m, s] =>
    (pyInt h).bind (fun hi => (pyInt m).bind (fun mi =>
      (pyFloat s).map (fun sq => (hi : ℚ) * 3600 + (mi : ℚ) * 60 + sq)))
  | _ => none

/-- The full report-parser behavior per the amended claim C4: key/value
lines into the raw map, the four metrics by key-fragment lookup, elapsed
as `[H:]M:S[.frac]`, percent with trailing `%` stripped, the rest by
numeric parse, every absent or unparseable field absent. -/
def specTimeUsageAmended (content : Option Str) : TimeUsage :=
  match content with
  | none => {}
  | some text =>
    let raw := timeRaw text
    { elapsed_seconds := (lookup_stat raw "Elapsed (wall clock) time".toList).bind specElapsedAmended,
      user_seconds := (lookup_stat raw "User time (seconds)".toList).bind pyFloat,
      system_seconds := (lookup_stat raw "System time (seconds)".toList).bind pyFloat,
      max_rss_kb := (lookup_stat raw "Maximum resident set size".toList).bind pyInt,
      cpu_percent := (lookup_stat raw "Percent of CPU this job got".toList).bind
        (fun s => pyFloat ((s.reverse.dropWhile (fun c => c = '%')).reverse)),
      raw := raw }

/-- The float model rejects the empty string (as Python `float("")`
does). -/
theorem pyFloat_nil : pyFloat ([] : Str) = none := by with_unfolding_all decide

/-- The int model rejects the empty string. -/
theorem pyInt_nil : pyInt ([] : Str) = none := by decide

/-- `_parse_float`'s empty-string guard is redundant given the float
model. -/
theorem parse_float_eq (v : Option Str) : parse_float v = v.bind pyFloat := by
  cases v with
  | none => rfl
  | some s =>
    by_cases hs : s = []
    · subst hs
      simp [parse_float, pyFloat_nil]
    · simp [parse_float, hs]

/-- `_parse_int`'s empty-string guard is redundant given the int model. -/
theorem parse_int_eq (v : Option Str) : parse_int v = v.bind pyInt := by
  cases v with
  | none => rfl
  | some s =>
    by_cases hs : s = []
    · subst hs
      simp [parse_int, pyInt_nil]
    · simp [parse_int, hs]

/-- `_parse_percent` equals stripping every trailing `%` and parsing as a
float. -/
theorem parse_percent_eq (v : Option Str) :
    parse_percent v =
      v.bind (fun s => pyFloat ((s.reverse.dropWhile (fun c => c = '%')).reverse)) := by
  cases v with
  | none => rfl
  | some s =>
    by_cases hs : s = []
    · subst hs
      simp [parse_percent, pyFloat_nil]
    · show parse_percent (some s) = pyFloat ((s.reverse.dropWhile (fun c => c = '%')).reverse)
      simp only [parse_percent]
      rw [if_neg hs]
      by_cases h2 : (s.reverse.dropWhile (fun c => c = '%')).reverse = []
      · simp [h2, pyFloat_nil]
      · simp [h2]

/-- `_parse_elapsed` equals the amended conversion. -/
theorem parse_elapsed_eq (v : Option Str) : parse_elapsed v = v.bind specElapsedAmended := by
  cases v with
  | none => rfl
  | some s =>
    show parse_elapsed (some s) = specElapsedAmended s
    by_cases hs : s = []
    · subst hs
      rfl
    · simp only [parse_elapsed, specElapsedAmended]
      rw [if_neg hs]
      cases hsp : splitAll ':' s with
      | nil => rfl
      | cons a l1 =>
        cases l1 with
        | nil => rfl
        | cons b l2 =>
          cases l2 with
          | nil =>
            cases hm : pyInt a <;> cases hf : pyFloat b <;> simp [hm, hf]
          | cons c3 l3 =>
            cases l3 with
            | nil =>
              cases hh : pyInt a <;> cases hm2 : pyInt b <;> cases hf : pyFloat c3 <;>
                simp [hh, hm2, hf]
            | cons d4 l4 => rfl

/-- C4 counterexample: a bare-seconds elapsed value (one colon-free
field) parses to absence in the code, while the claim's stated form
`[[H:]M:]S[.frac]` converts it to 5 seconds. -/
theorem c4_counterexample :
    parse_elapsed (some "5.00".toList) = none ∧
    specElapsedClaim "5.00".toList = some (5 : ℚ) := by
  exact ⟨by with_unfolding_all decide, by with_unfolding_all decide⟩

/-- C4 (amended): the report parser is total and equals the amended
field-by-field description (elapsed requires at least minutes and
seconds); an absent report yields the all-absent record; and the round
trips `1:02.50 ↦ 62.5` and `0:05.00 ↦ 5.0` hold. -/
theorem c4_time_report (content : Option Str) :
    parse_time_output content = specTimeUsageAmended content ∧
    parse_elapsed (some "1:02.50".toList) = some (125 / 2 : ℚ) ∧
    parse_elapsed (some "0:05.00".toList) = some (5 : ℚ) ∧
    parse_time_output none = {} := by
  refine ⟨?_, by with_unfolding_all decide, by with_unfolding_all decide, rfl⟩
  cases content with
  | none => rfl
  | some text =>
    simp only [parse_time_output, specTimeUsageAmended]
    rw [parse_elapsed_eq, parse_float_eq, parse_float_eq, parse_int_eq, parse_percent_eq]

/-- C4 witness (the equality theorem specialized to a concrete report
containing all four metric families). -/
theorem c4_time_report_witness :
    parse_time_output (some "User time (seconds): 1.50\nPercent of CPU this job got: 99%\n".toList) =
      specTimeUsageAmended
        (some "User time (seconds): 1.50\nPercent of CPU this job got: 99%\n".toList) :=
  (c4_time_report
    (some "User time (seconds): 1.50\nPercent of CPU this job got: 99%\n".toList)).1

/-! ### Claim-side definitions and lemmas for C8 -/

/-- Whether a line (after stripping) matches any of the five timing
patterns. -/
def lineMatches (line : Str) : Bool :=
  timingKeys.any (fun kv => (matchTiming kv.2.1 kv.2.2 (trim line)).isSome)

/-- Folding the pattern table over a line that matches none of its
patterns changes nothing. -/
theorem timing_fold_no_match (line : Str) (ks : List (Str × Str × Str)) (acc : Dict ℚ)
    (h : ∀ kv ∈ ks, matchTiming kv.2.1 kv.2.2 (trim line) = none) :
    ks.foldl (fun acc2 kv =>
      match matchTiming kv.2.1 kv.2.2 (trim line) with
      | some num =>
        match pyFloat num with
        | some q => dictInsert acc2 kv.1 q
        | none => acc2
      | none => acc2) acc = acc := by
  induction ks generalizing acc with
  | nil => rfl
  | cons kv ks ih =>
    rw [List.foldl_cons]
    rw [h kv (by simp)]
    exact ih acc (fun kv2 h2 => h kv2 (by simp [h2]))

/-- A non-matching line leaves the accumulated values unchanged. -/
theorem parse_timing_line_no_match (values : Dict ℚ) (line : Str)
    (h : lineMatches line = false) : parse_timing_line values line = values := by
  unfold parse_timing_line
  by_cases h0 : trim line = []
  · rw [if_pos h0]
  · rw [if_neg h0]
    apply timing_fold_no_match
    intro kv hkv
    simp only [lineMatches, List.any_eq_false] at h
    have := h kv hkv
    exact Option.not_isSome_iff_eq_none.mp (by simpa using this)

/-- A stream with no matching line leaves the accumulated values
unchanged. -/
theorem parse_timing_stream_no_match (ls : List Str) (acc : Dict ℚ)
    (h : ∀ l ∈ ls, lineMatches l = false) :
    ls.foldl parse_timing_line acc = acc := by
  induction ls generalizing acc with
  | nil => rfl
  | cons l ls ih =>
    rw [List.foldl_cons, parse_timing_line_no_match acc l (h l (by simp))]
    exact ih acc (fun x hx => h x (by simp [hx]))

/-- One stream's contribution, with the `if not stream` guard folded
away. -/
theorem timing_stream_step (s : Str) (acc : Dict ℚ)
    (h : ∀ l ∈ splitlines s, lineMatches l = false) :
    (if s = [] then acc else (splitlines s).foldl parse_timing_line acc) = acc := by
  by_cases h0 : s = []
  · rw [if_pos h0]
  · rw [if_neg h0]
    exact parse_timing_stream_no_match _ _ h

/-- C8: with zero matching lines across both streams the timing parser
returns absence (not an empty record); and with stdout being exactly
`Total time elapsed  =  12.34 seconds` and a stderr with no matching
line, it returns a record with `total_elapsed = 12.34` and every other
field absent. -/
theorem c8_timing_absent (stdout stderr : Str) :
    (((splitlines stdout ++ splitlines stderr).all (fun l => !lineMatches l)) = true →
      parse_openmc_timing [stdout, stderr] = none) ∧
    (((splitlines stderr).all (fun l => !lineMatches l)) = true →
      parse_openmc_timing ["Total time elapsed  =  12.34 seconds".toList, stderr] =
        some { total_elapsed := some (1234 / 100 : ℚ), initialization := none,
               transport := none, calc_rate_inactive := none, calc_rate_active := none,
               raw := [("total_elapsed".toList, (1234 / 100 : ℚ))] }) := by
  constructor
  · intro h
    simp only [List.all_eq_true, List.mem_append, Bool.not_eq_true'] at h
    unfold parse_openmc_timing
    simp only [List.foldl_cons, List.foldl_nil]
    rw [timing_stream_step stdout [] (fun l hl => h l (Or.inl hl)),
      timing_stream_step stderr [] (fun l hl => h l (Or.inr hl))]
    rfl
  · intro h
    simp only [List.all_eq_true, Bool.not_eq_true'] at h
    unfold parse_openmc_timing
    simp only [List.foldl_cons, List.foldl_nil]
    rw [show (if ("Total time elapsed  =  12.34 seconds".toList : Str) = [] then ([] : Dict ℚ)
        else (splitlines "Total time elapsed  =  12.34 seconds".toList).foldl
          parse_timing_line []) =
        [("total_elapsed".toList, (1234 / 100 : ℚ))] from by with_unfolding_all decide]
    rw [timing_stream_step stderr _ h]
    with_unfolding_all decide

/-- C8 witness: a stream pair with no matching lines yields absence; the
single total-elapsed line yields the one-field record. -/
theorem c8_timing_absent_witness :
    parse_openmc_timing ["no timing here".toList, []] = none ∧
    parse_openmc_timing ["Total time elapsed  =  12.34 seconds".toList, []] =
      some { total_elapsed := some (1234 / 100 : ℚ), initialization := none,
             transport := none, calc_rate_inactive := none, calc_rate_active := none,
             raw := [("total_elapsed".toList, (1234 / 100 : ℚ))] } :=
  ⟨(c8_timing_absent "no timing here".toList []).1 (by decide),
   (c8_timing_absent "no timing here".toList []).2 (by decide)⟩

end OpenMCBench
